import Mathlib

/-!
Verification of the ownership-arbitration and location-resolution core of
the vctrs library, against its specification.

The clone arbiter is embedded from `src/src/owned.h` (`vec_owned`,
`vec_clone_referenced`).  The location normalizer is only declared in
`src/src/slice.h` (`vec_as_location_opts`); its body is modelled from the
specification, as noted on each definition.
-/

namespace Vctrs

/-- Ownership state of a vector handle (spec §3): exclusively referenced
or possibly aliased. -/
inductive Ownership where
  | Exclusive
  | Shared
deriving DecidableEq, Repr

/-- Materialization kind of a vector handle (spec §3): concrete storage or
a virtual (ALTREP, lazily computed) representation. -/
inductive Materialization where
  | Concrete
  | Virtual
deriving DecidableEq, Repr

/-- A handle to vector storage (spec §3 `VectorHandle`): a storage
identity, the logical element content, and the two metadata tags.  The
storage identity stands for the address of the underlying buffer, so that
aliasing and copying are observable. -/
structure VectorHandle where
  storage_id : Nat
  content : List Int
  ownership_state : Ownership
  materialization_kind : Materialization
deriving DecidableEq, Repr

/-- The `enum vctrs_owned` of `owned.h`. -/
inductive vctrs_owned where
  | VCTRS_OWNED_true
  | VCTRS_OWNED_false
deriving DecidableEq, Repr

/-- Host predicate `ALTREP(x)`: the handle is a virtual (lazily computed)
representation. -/
def ALTREP (x : VectorHandle) : Bool :=
  decide (x.materialization_kind = Materialization.Virtual)

/-- Host reference oracle `NO_REFERENCES(x)`: no other live handle
references this storage, i.e. the ownership state is `Exclusive`. -/
def NO_REFERENCES (x : VectorHandle) : Bool :=
  decide (x.ownership_state = Ownership.Exclusive)

/-- Host `r_clone_referenced(x)`: a deep copy into fresh storage.  The
copy duplicates the logical content and yields a new handle with
`ownership_state = Exclusive` and `materialization_kind = Concrete`
(spec §4.1 step 3); freshness of the storage is modelled by a storage
identity distinct from the input one. -/
def r_clone_referenced (x : VectorHandle) : VectorHandle :=
  { storage_id := x.storage_id + 1
    content := x.content
    ownership_state := Ownership.Exclusive
    materialization_kind := Materialization.Concrete }

/-- `vec_owned` from `owned.h`:
`NO_REFERENCES(x) ? VCTRS_OWNED_true : VCTRS_OWNED_false`. -/
def vec_owned (x : VectorHandle) : vctrs_owned :=
  if NO_REFERENCES x then vctrs_owned.VCTRS_OWNED_true
  else vctrs_owned.VCTRS_OWNED_false

/-- `vec_clone_referenced` from `owned.h`: clone when `x` is ALTREP,
clone when not owned, otherwise return `x` itself. -/
def vec_clone_referenced (x : VectorHandle) (owned : vctrs_owned) : VectorHandle :=
  if ALTREP x then
    r_clone_referenced x
  else
    if owned = vctrs_owned.VCTRS_OWNED_false then
      r_clone_referenced x
    else
      x

/-- The spec's clone-arbiter entry point `ensure_mutable` (§4.1, §6):
`vec_clone_referenced` driven by the reference oracle through
`vec_owned`. -/
def ensure_mutable (h : VectorHandle) : VectorHandle :=
  vec_clone_referenced h (vec_owned h)

/-- Concrete shared handle used to instantiate hypotheses. -/
def sharedHandle : VectorHandle :=
  { storage_id := 0
    content := [1, 2, 3]
    ownership_state := Ownership.Shared
    materialization_kind := Materialization.Concrete }

/-- Concrete virtual handle used to instantiate hypotheses. -/
def virtualHandle : VectorHandle :=
  { storage_id := 5
    content := [4, 5]
    ownership_state := Ownership.Exclusive
    materialization_kind := Materialization.Virtual }

/-- Concrete exclusively owned handle used to instantiate hypotheses. -/
def exclusiveHandle : VectorHandle :=
  { storage_id := 7
    content := [9]
    ownership_state := Ownership.Exclusive
    materialization_kind := Materialization.Concrete }

/-- C1: a virtual (ALTREP) handle is always deep-copied by
`vec_clone_referenced`, whatever the ownership flag says, and the result
never shares the input's storage. -/
theorem virtual_always_deep_copied (h : VectorHandle) (owned : vctrs_owned)
    (hv : h.materialization_kind = Materialization.Virtual) :
    vec_clone_referenced h owned = r_clone_referenced h ∧
      (vec_clone_referenced h owned).storage_id ≠ h.storage_id := by
  have ha : ALTREP h = true := by simp [ALTREP, hv]
  constructor
  · simp [vec_clone_referenced, ha]
  · simp [vec_clone_referenced, ha, r_clone_referenced]

/-- Witness for C1 at a concrete virtual handle and both ownership
flags. -/
theorem virtual_always_deep_copied_witness :
    (vec_clone_referenced virtualHandle vctrs_owned.VCTRS_OWNED_true
        = r_clone_referenced virtualHandle ∧
      (vec_clone_referenced virtualHandle vctrs_owned.VCTRS_OWNED_true).storage_id
        ≠ virtualHandle.storage_id) ∧
    (vec_clone_referenced virtualHandle vctrs_owned.VCTRS_OWNED_false
        = r_clone_referenced virtualHandle ∧
      (vec_clone_referenced virtualHandle vctrs_owned.VCTRS_OWNED_false).storage_id
        ≠ virtualHandle.storage_id) :=
  ⟨virtual_always_deep_copied virtualHandle vctrs_owned.VCTRS_OWNED_true (by decide),
   virtual_always_deep_copied virtualHandle vctrs_owned.VCTRS_OWNED_false (by decide)⟩

/-- C2: `ensure_mutable` always yields an exclusively owned handle, and
when the input is virtual or shared the result has distinct storage but
the same logical content. -/
theorem ensure_mutable_exclusive (h : VectorHandle) :
    (ensure_mutable h).ownership_state = Ownership.Exclusive ∧
      ((h.materialization_kind = Materialization.Virtual ∨
          h.ownership_state = Ownership.Shared) →
        (ensure_mutable h).storage_id ≠ h.storage_id ∧
          (ensure_mutable h).content = h.content) := by
  rcases h with ⟨sid, c, os, mk⟩
  cases os <;> cases mk <;>
    simp [ensure_mutable, vec_clone_referenced, vec_owned, ALTREP, NO_REFERENCES,
      r_clone_referenced]

/-- Witness for C2 at a concrete shared handle, discharging the inner
implication. -/
theorem ensure_mutable_exclusive_witness :
    (ensure_mutable sharedHandle).ownership_state = Ownership.Exclusive ∧
      (ensure_mutable sharedHandle).storage_id ≠ sharedHandle.storage_id ∧
        (ensure_mutable sharedHandle).content = sharedHandle.content :=
  ⟨(ensure_mutable_exclusive sharedHandle).1,
   (ensure_mutable_exclusive sharedHandle).2 (Or.inr (by decide))⟩

/-- C3: a concrete handle that the reference oracle reports as
exclusively referenced passes through `ensure_mutable` identically, with
no copy: the returned handle, its storage identity included, equals the
input. -/
theorem ensure_mutable_fast_path (h : VectorHandle)
    (hc : h.materialization_kind = Materialization.Concrete)
    (hr : NO_REFERENCES h = true) :
    ensure_mutable h = h ∧ (ensure_mutable h).storage_id = h.storage_id := by
  have ha : ALTREP h = false := by simp [ALTREP, hc]
  have : ensure_mutable h = h := by
    simp [ensure_mutable, vec_clone_referenced, vec_owned, ha, hr]
  exact ⟨this, by rw [this]⟩

/-- Witness for C3 at a concrete exclusively referenced handle. -/
theorem ensure_mutable_fast_path_witness :
    ensure_mutable exclusiveHandle = exclusiveHandle ∧
      (ensure_mutable exclusiveHandle).storage_id = exclusiveHandle.storage_id :=
  ensure_mutable_fast_path exclusiveHandle (by decide) (by decide)

/-- C10: for an ALTREP input the `owned` flag of `vec_clone_referenced`
has no influence on the result. -/
theorem altrep_owned_noninterference (x : VectorHandle)
    (hv : ALTREP x = true) :
    vec_clone_referenced x vctrs_owned.VCTRS_OWNED_true
      = vec_clone_referenced x vctrs_owned.VCTRS_OWNED_false := by
  simp [vec_clone_referenced, hv]

/-- Witness for C10 at a concrete virtual handle. -/
theorem altrep_owned_noninterference_witness :
    vec_clone_referenced virtualHandle vctrs_owned.VCTRS_OWNED_true
      = vec_clone_referenced virtualHandle vctrs_owned.VCTRS_OWNED_false :=
  altrep_owned_noninterference virtualHandle (by decide)

/-- A raw location specifier (spec §3). -/
inductive LocationSpecifier where
  | Positions : List Int → LocationSpecifier
  | Mask : List Bool → LocationSpecifier
  | Names : List String → LocationSpecifier
deriving DecidableEq, Repr

/-- The `struct vec_as_location_options` of `slice.h`. -/
structure vec_as_location_options where
  convert_negative : Bool
deriving DecidableEq, Repr

/-- Errors of the location normalizer (spec §7). -/
inductive ResolveError where
  | OutOfBounds
  | MixedSignLocations
  | NegativeNotAllowed
  | MaskLengthMismatch
  | NamesRequired
  | NameNotFound
deriving DecidableEq, Repr

/-- Zero entries of a `Positions` specifier mean "omit" and are removed
before any other processing (spec §4.2). -/
def dropZeros (p : List Int) : List Int :=
  p.filter (fun v => decide (v ≠ 0))

/-- Magnitudes of the (negative) entries left after dropping zeros: the
exclusion set of a negative `Positions` specifier (spec §4.2). -/
def negMagnitudes (p : List Int) : List Nat :=
  (dropZeros p).map (fun v => (-v).toNat)

/-- Modelled from the spec: the `Positions` case of the normalizer
(§4.2), standing in for the body of `vec_as_location_opts`, which
`slice.h` only declares.  Zeros are dropped; mixed signs fail; positive
entries are bounds-checked and kept in order; negative entries form an
exclusion set when `convert_negative` allows it. -/
def resolvePositions (p : List Int) (n : Nat)
    (opts : vec_as_location_options) : Except ResolveError (List Nat) :=
  if ((dropZeros p).any (fun v => decide (0 < v)))
      && ((dropZeros p).any (fun v => decide (v < 0))) then
    Except.error ResolveError.MixedSignLocations
  else if (dropZeros p).all (fun v => decide (0 ≤ v)) then
    if (dropZeros p).all (fun v => decide (1 ≤ v) && decide (v ≤ (n : Int))) then
      Except.ok ((dropZeros p).map Int.toNat)
    else
      Except.error ResolveError.OutOfBounds
  else
    if opts.convert_negative = false then
      Except.error ResolveError.NegativeNotAllowed
    else
      if (negMagnitudes p).all (fun m => decide (1 ≤ m) && decide (m ≤ n)) then
        Except.ok (((List.range n).map (fun i => i + 1)).filter
          (fun i => decide (¬ i ∈ negMagnitudes p)))
      else
        Except.error ResolveError.OutOfBounds

/-- Modelled from the spec: the `Mask` case of the normalizer (§4.2),
standing in for the body of `vec_as_location_opts`.  A full-length mask
selects the true positions in ascending order; a length-one mask
broadcasts; any other length is a mismatch. -/
def resolveMask (m : List Bool) (n : Nat) : Except ResolveError (List Nat) :=
  if m.length = n then
    Except.ok ((List.range n).filterMap
      (fun i => if m.getD i false then some (i + 1) else none))
  else if m.length = 1 then
    if m.getD 0 false then
      Except.ok ((List.range n).map (fun i => i + 1))
    else
      Except.ok []
  else
    Except.error ResolveError.MaskLengthMismatch

/-- One-based position of the first exact match of a name in a name
table, if any. -/
def firstMatch : List String → String → Option Nat
  | [], _ => none
  | t :: ts, nm =>
    if t = nm then some 1 else (firstMatch ts nm).map (fun j => j + 1)

/-- Modelled from the spec: the `Names` case of the normalizer (§4.2)
once a name table is present, standing in for the body of
`vec_as_location_opts`.  Each requested name resolves to the first exact
match in the table, in request order; a name with no match fails. -/
def resolveNames (tbl : List String) : List String → Except ResolveError (List Nat)
  | [] => Except.ok []
  | nm :: rest =>
    match firstMatch tbl nm with
    | none => Except.error ResolveError.NameNotFound
    | some j =>
      match resolveNames tbl rest with
      | Except.error e => Except.error e
      | Except.ok js => Except.ok (j :: js)

/-- Modelled from the spec: `resolve(spec, n, names?, options)` (§4.2,
§6), the contract of `vec_as_location_opts`, whose body is not in the
source fragment.  Dispatches on the specifier variant; a `Names`
specifier without a name table fails with `NamesRequired`. -/
def resolve (spec : LocationSpecifier) (n : Nat)
    (names : Option (List String)) (opts : vec_as_location_options) :
    Except ResolveError (List Nat) :=
  match spec with
  | LocationSpecifier.Positions p => resolvePositions p n opts
  | LocationSpecifier.Mask m => resolveMask m n
  | LocationSpecifier.Names s =>
    match names with
    | none => Except.error ResolveError.NamesRequired
    | some tbl => resolveNames tbl s

lemma mem_dropZeros {p : List Int} {v : Int} :
    v ∈ dropZeros p ↔ v ∈ p ∧ v ≠ 0 := by
  simp [dropZeros, List.mem_filter]

lemma dropZeros_idem (p : List Int) : dropZeros (dropZeros p) = dropZeros p := by
  simp [dropZeros, List.filter_filter]

lemma mem_one_based {n i : Nat} :
    i ∈ (List.range n).map (fun j => j + 1) ↔ 1 ≤ i ∧ i ≤ n := by
  simp only [List.mem_map, List.mem_range]
  constructor
  · rintro ⟨j, hj, rfl⟩
    omega
  · rintro ⟨h1, h2⟩
    exact ⟨i - 1, by omega, by omega⟩

lemma sorted_one_based (n : Nat) :
    List.Sorted (· < ·) ((List.range n).map (fun j => j + 1)) := by
  rw [List.Sorted, List.pairwise_map]
  exact (List.sorted_lt_range n).imp (fun h => Nat.succ_lt_succ h)

/-- C7: a `Positions` specifier with both a strictly-positive and a
strictly-negative entry is rejected with `MixedSignLocations`, for every
length, name table and options. -/
theorem mixed_sign_rejected (p : List Int) (n : Nat)
    (names : Option (List String)) (opts : vec_as_location_options)
    (hp : ∃ a ∈ p, 0 < a) (hn : ∃ b ∈ p, b < 0) :
    resolve (LocationSpecifier.Positions p) n names opts
      = Except.error ResolveError.MixedSignLocations := by
  obtain ⟨a, ha, hapos⟩ := hp
  obtain ⟨b, hb, hbneg⟩ := hn
  have hca : (dropZeros p).any (fun v => decide (0 < v)) = true :=
    List.any_eq_true.2 ⟨a, mem_dropZeros.2 ⟨ha, by omega⟩, by simpa using hapos⟩
  have hcb : (dropZeros p).any (fun v => decide (v < 0)) = true :=
    List.any_eq_true.2 ⟨b, mem_dropZeros.2 ⟨hb, by omega⟩, by simpa using hbneg⟩
  simp [resolve, resolvePositions, hca, hcb]

/-- Witness for C7 at the specifier `[2, -1]`. -/
theorem mixed_sign_rejected_witness :
    resolve (LocationSpecifier.Positions [2, -1]) 5 none ⟨true⟩
      = Except.error ResolveError.MixedSignLocations :=
  mixed_sign_rejected [2, -1] 5 none ⟨true⟩
    ⟨2, by decide, by decide⟩ ⟨-1, by decide, by decide⟩

/-- C5: a `Positions` specifier that is non-negative after dropping
zeros either succeeds with exactly the zero-filtered sequence, in order
and with duplicates preserved, or fails with `OutOfBounds` when some
remaining entry exceeds the length. -/
theorem positive_positions_resolution (p : List Int) (n : Nat)
    (names : Option (List String)) (opts : vec_as_location_options)
    (hpos : ∀ v ∈ p, 0 ≤ v) :
    ((∀ v ∈ dropZeros p, v ≤ (n : Int)) →
      resolve (LocationSpecifier.Positions p) n names opts
        = Except.ok ((dropZeros p).map Int.toNat)) ∧
    ((∃ v ∈ dropZeros p, (n : Int) < v) →
      resolve (LocationSpecifier.Positions p) n names opts
        = Except.error ResolveError.OutOfBounds) := by
  have hq : ∀ v ∈ dropZeros p, 0 < v := by
    intro v hv
    obtain ⟨hvp, hv0⟩ := mem_dropZeros.1 hv
    have := hpos v hvp
    omega
  have hnoneg : (dropZeros p).any (fun v => decide (v < 0)) = false := by
    rw [Bool.eq_false_iff]
    intro hc
    obtain ⟨v, hv, hvlt⟩ := List.any_eq_true.1 hc
    have := hq v hv
    simp at hvlt
    omega
  have hall0 : (dropZeros p).all (fun v => decide (0 ≤ v)) = true :=
    List.all_eq_true.2 fun v hv => by
      have := hq v hv
      simp
      omega
  constructor
  · intro hbound
    have hall : (dropZeros p).all
        (fun v => decide (1 ≤ v) && decide (v ≤ (n : Int))) = true :=
      List.all_eq_true.2 fun v hv => by
        have h1 := hq v hv
        have h2 := hbound v hv
        simp
        omega
    simp [resolve, resolvePositions, hnoneg, hall0, hall]
  · rintro ⟨v, hv, hvn⟩
    have hnall : (dropZeros p).all
        (fun v => decide (1 ≤ v) && decide (v ≤ (n : Int))) = false := by
      rw [Bool.eq_false_iff]
      intro hc
      have := List.all_eq_true.1 hc v hv
      simp at this
      omega
    simp [resolve, resolvePositions, hnoneg, hall0, hnall]

/-- Witness for C5 at the specifiers `[1, 3, 5]` (success) and `[6]`
(out of bounds), with length 5. -/
theorem positive_positions_resolution_witness :
    resolve (LocationSpecifier.Positions [1, 3, 5]) 5 none ⟨true⟩
      = Except.ok ((dropZeros [1, 3, 5]).map Int.toNat) ∧
    resolve (LocationSpecifier.Positions [6]) 5 none ⟨true⟩
      = Except.error ResolveError.OutOfBounds :=
  ⟨(positive_positions_resolution [1, 3, 5] 5 none ⟨true⟩ (by decide)).1
      (by decide),
   (positive_positions_resolution [6] 5 none ⟨true⟩ (by decide)).2
      ⟨6, by decide, by decide⟩⟩

/-- C6: a `Positions` specifier that is negative after dropping zeros is
rejected with `NegativeNotAllowed` unless `convert_negative` is set;
with it set, each magnitude is bounds-checked (else `OutOfBounds`) and
the result is `{1..n}` minus the exclusion set, ascending, with
duplicate exclusions having no further effect. -/
theorem negative_positions_resolution (p : List Int) (n : Nat)
    (names : Option (List String)) (opts : vec_as_location_options)
    (hneg : ∀ v ∈ p, v ≤ 0) (hsome : ∃ v ∈ p, v < 0) :
    (opts.convert_negative = false →
      resolve (LocationSpecifier.Positions p) n names opts
        = Except.error ResolveError.NegativeNotAllowed) ∧
    (opts.convert_negative = true →
      ((∀ v ∈ p, -(n : Int) ≤ v) →
        resolve (LocationSpecifier.Positions p) n names opts
          = Except.ok (((List.range n).map (fun i => i + 1)).filter
              (fun i => decide (¬ i ∈ negMagnitudes p))) ∧
        List.Sorted (· < ·) (((List.range n).map (fun i => i + 1)).filter
              (fun i => decide (¬ i ∈ negMagnitudes p))) ∧
        (∀ i : Nat, i ∈ ((List.range n).map (fun i => i + 1)).filter
              (fun i => decide (¬ i ∈ negMagnitudes p))
          ↔ 1 ≤ i ∧ i ≤ n ∧ ¬ i ∈ negMagnitudes p)) ∧
      ((∃ v ∈ p, v < -(n : Int)) →
        resolve (LocationSpecifier.Positions p) n names opts
          = Except.error ResolveError.OutOfBounds)) := by
  have hq : ∀ v ∈ dropZeros p, v < 0 := by
    intro v hv
    obtain ⟨hvp, hv0⟩ := mem_dropZeros.1 hv
    have := hneg v hvp
    omega
  have hnopos : (dropZeros p).any (fun v => decide (0 < v)) = false := by
    rw [Bool.eq_false_iff]
    intro hc
    obtain ⟨v, hv, hvlt⟩ := List.any_eq_true.1 hc
    have := hq v hv
    simp at hvlt
    omega
  have hnall0 : (dropZeros p).all (fun v => decide (0 ≤ v)) = false := by
    rw [Bool.eq_false_iff]
    intro hc
    obtain ⟨v, hvp, hvlt⟩ := hsome
    have hvq : v ∈ dropZeros p := mem_dropZeros.2 ⟨hvp, by omega⟩
    have := List.all_eq_true.1 hc v hvq
    simp at this
    omega
  refine ⟨?_, ?_⟩
  · intro hcn
    simp [resolve, resolvePositions, hnopos, hnall0, hcn]
  · intro hcn
    refine ⟨?_, ?_⟩
    · intro hbound
      have hmall : (negMagnitudes p).all
          (fun m => decide (1 ≤ m) && decide (m ≤ n)) = true :=
        List.all_eq_true.2 fun m hm => by
          obtain ⟨v, hv, rfl⟩ := List.mem_map.1 hm
          have h1 := hq v hv
          have h2 := hbound v (mem_dropZeros.1 hv).1
          simp
          omega
      refine ⟨?_, ?_, ?_⟩
      · simp [resolve, resolvePositions, hnopos, hnall0, hcn, hmall]
      · exact (sorted_one_based n).filter _
      · intro i
        rw [List.mem_filter, mem_one_based]
        simp
        tauto
    · rintro ⟨v, hv, hvn⟩
      have hmnall : (negMagnitudes p).all
          (fun m => decide (1 ≤ m) && decide (m ≤ n)) = false := by
        rw [Bool.eq_false_iff]
        intro hc
        have hvq : v ∈ dropZeros p := mem_dropZeros.2 ⟨hv, by omega⟩
        have hmem : (-v).toNat ∈ negMagnitudes p :=
          List.mem_map.2 ⟨v, hvq, rfl⟩
        have := List.all_eq_true.1 hc _ hmem
        simp at this
        omega
      simp [resolve, resolvePositions, hnopos, hnall0, hcn, hmnall]

/-- Witness for C6 at the specifier `[-2, -4]` with length 5, under both
option settings, and at the out-of-bounds exclusion `[-6]`. -/
theorem negative_positions_resolution_witness :
    resolve (LocationSpecifier.Positions [-2, -4]) 5 none ⟨false⟩
      = Except.error ResolveError.NegativeNotAllowed ∧
    resolve (LocationSpecifier.Positions [-2, -4]) 5 none ⟨true⟩
      = Except.ok (((List.range 5).map (fun i => i + 1)).filter
          (fun i => decide (¬ i ∈ negMagnitudes [-2, -4]))) ∧
    resolve (LocationSpecifier.Positions [-6]) 5 none ⟨true⟩
      = Except.error ResolveError.OutOfBounds :=
  ⟨(negative_positions_resolution [-2, -4] 5 none ⟨false⟩ (by decide)
      ⟨-2, by decide, by decide⟩).1 rfl,
   (((negative_positions_resolution [-2, -4] 5 none ⟨true⟩ (by decide)
      ⟨-2, by decide, by decide⟩).2 rfl).1 (by decide)).1,
   ((negative_positions_resolution [-6] 5 none ⟨true⟩ (by decide)
      ⟨-6, by decide, by decide⟩).2 rfl).2 ⟨-6, by decide, by decide⟩⟩

lemma filterMap_if_eq (l : List Nat) (g : Nat → Bool) :
    l.filterMap (fun i => if g i then some (i + 1) else none)
      = (l.filter g).map (fun i => i + 1) := by
  induction l with
  | nil => rfl
  | cons a l ih =>
    by_cases h : g a <;>
      simp [List.filterMap_cons, List.filter_cons, h, ih]

/-- C8: a mask of the target length selects exactly the true positions
in ascending order, a length-one mask broadcasts, and any other length
fails with `MaskLengthMismatch`. -/
theorem mask_resolution (m : List Bool) (n : Nat)
    (names : Option (List String)) (opts : vec_as_location_options) :
    (m.length = n →
      resolve (LocationSpecifier.Mask m) n names opts
        = Except.ok (((List.range n).filter
            (fun i => m.getD i false)).map (fun i => i + 1)) ∧
      List.Sorted (· < ·) (((List.range n).filter
            (fun i => m.getD i false)).map (fun i => i + 1)) ∧
      (∀ i : Nat, i ∈ ((List.range n).filter
            (fun i => m.getD i false)).map (fun i => i + 1)
        ↔ 1 ≤ i ∧ i ≤ n ∧ m.getD (i - 1) false = true)) ∧
    (m.length = 1 →
      (m.getD 0 false = true →
        resolve (LocationSpecifier.Mask m) n names opts
          = Except.ok ((List.range n).map (fun i => i + 1))) ∧
      (m.getD 0 false = false →
        resolve (LocationSpecifier.Mask m) n names opts = Except.ok [])) ∧
    (m.length ≠ n → m.length ≠ 1 →
      resolve (LocationSpecifier.Mask m) n names opts
        = Except.error ResolveError.MaskLengthMismatch) := by
  refine ⟨?_, ?_, ?_⟩
  · intro hlen
    refine ⟨?_, ?_, ?_⟩
    · simp [resolve, resolveMask, hlen, filterMap_if_eq]
    · rw [List.Sorted, List.pairwise_map]
      exact ((List.sorted_lt_range n).filter _).imp fun h => Nat.succ_lt_succ h
    · intro i
      simp only [List.mem_map, List.mem_filter, List.mem_range]
      constructor
      · rintro ⟨j, ⟨hj, hg⟩, rfl⟩
        refine ⟨by omega, by omega, ?_⟩
        simpa using hg
      · rintro ⟨h1, h2, h3⟩
        exact ⟨i - 1, ⟨by omega, by simpa using h3⟩, by omega⟩
  · intro h1
    obtain ⟨b, rfl⟩ := List.length_eq_one.1 h1
    by_cases hn : n = 1
    · subst hn
      constructor
      · intro hb
        simp only [List.getD] at hb
        simp at hb
        subst hb
        rfl
      · intro hb
        simp only [List.getD] at hb
        simp at hb
        subst hb
        rfl
    · have hne : ¬ (1 = n) := fun h => hn h.symm
      constructor
      · intro hb
        simp at hb
        subst hb
        simp [resolve, resolveMask, hne]
      · intro hb
        simp at hb
        subst hb
        simp [resolve, resolveMask, hne]
  · intro hn h1
    simp [resolve, resolveMask, hn, h1]

/-- Witness for C8 at masks of length 3 (exact), length 1 (both
broadcasts) and length 2 (mismatch), all with length 3. -/
theorem mask_resolution_witness :
    resolve (LocationSpecifier.Mask [true, false, true]) 3 none ⟨true⟩
      = Except.ok (((List.range 3).filter
          (fun i => [true, false, true].getD i false)).map (fun i => i + 1)) ∧
    resolve (LocationSpecifier.Mask [true]) 3 none ⟨true⟩
      = Except.ok ((List.range 3).map (fun i => i + 1)) ∧
    resolve (LocationSpecifier.Mask [false]) 3 none ⟨true⟩ = Except.ok [] ∧
    resolve (LocationSpecifier.Mask [true, false]) 3 none ⟨true⟩
      = Except.error ResolveError.MaskLengthMismatch :=
  ⟨((mask_resolution [true, false, true] 3 none ⟨true⟩).1 rfl).1,
   ((mask_resolution [true] 3 none ⟨true⟩).2.1 rfl).1 rfl,
   ((mask_resolution [false] 3 none ⟨true⟩).2.1 rfl).2 rfl,
   (mask_resolution [true, false] 3 none ⟨true⟩).2.2 (by decide) (by decide)⟩

lemma firstMatch_spec {tbl : List String} {nm : String} {j : Nat}
    (h : firstMatch tbl nm = some j) :
    1 ≤ j ∧ j ≤ tbl.length ∧ tbl[j - 1]? = some nm ∧
      ∀ i, i < j - 1 → tbl[i]? ≠ some nm := by
  induction tbl generalizing j with
  | nil => simp [firstMatch] at h
  | cons t ts ih =>
    by_cases ht : t = nm
    · rw [firstMatch, if_pos ht] at h
      obtain rfl : 1 = j := by simpa using h
      refine ⟨Nat.le_refl 1, by simp, ?_, ?_⟩
      · simpa using ht
      · intro i hi
        omega
    · rw [firstMatch, if_neg ht] at h
      rw [Option.map_eq_some'] at h
      obtain ⟨j', hj', rfl⟩ := h
      obtain ⟨h1, h2, h3, h4⟩ := ih hj'
      obtain ⟨k, rfl⟩ : ∃ k, j' = k + 1 := ⟨j' - 1, by omega⟩
      refine ⟨by omega, by simp; omega, ?_, ?_⟩
      · simpa using h3
      · intro i hi
        cases i with
        | zero => simpa using ht
        | succ i' =>
          rw [List.getElem?_cons_succ]
          exact h4 i' (by omega)

lemma firstMatch_of_mem {tbl : List String} {nm : String} (h : nm ∈ tbl) :
    ∃ j, firstMatch tbl nm = some j := by
  induction tbl with
  | nil => simp at h
  | cons t ts ih =>
    by_cases ht : t = nm
    · exact ⟨1, by rw [firstMatch, if_pos ht]⟩
    · have hts : nm ∈ ts := by
        rcases List.mem_cons.1 h with hc | hc
        · exact absurd hc.symm ht
        · exact hc
      obtain ⟨j, hj⟩ := ih hts
      exact ⟨j + 1, by rw [firstMatch, if_neg ht, hj]; rfl⟩

lemma firstMatch_none_of_not_mem {tbl : List String} {nm : String}
    (h : ¬ nm ∈ tbl) : firstMatch tbl nm = none := by
  induction tbl with
  | nil => rfl
  | cons t ts ih =>
    have ht : ¬ t = nm := fun hc => h (hc ▸ List.mem_cons_self t ts)
    rw [firstMatch, if_neg ht, ih (fun hc => h (List.mem_cons_of_mem t hc))]
    rfl

lemma resolveNames_map {tbl : List String} {s : List String}
    (h : ∀ nm ∈ s, nm ∈ tbl) :
    resolveNames tbl s
      = Except.ok (s.map (fun nm => (firstMatch tbl nm).getD 0)) := by
  induction s with
  | nil => rfl
  | cons nm rest ih =>
    obtain ⟨j, hj⟩ := firstMatch_of_mem (h nm (List.mem_cons_self nm rest))
    rw [resolveNames, hj, ih (fun x hx => h x (List.mem_cons_of_mem nm hx))]
    simp [hj]

lemma resolveNames_missing {tbl : List String} {s : List String}
    (h : ∃ nm ∈ s, ¬ nm ∈ tbl) :
    resolveNames tbl s = Except.error ResolveError.NameNotFound := by
  induction s with
  | nil => simp at h
  | cons nm rest ih =>
    by_cases hm : nm ∈ tbl
    · obtain ⟨j, hj⟩ := firstMatch_of_mem hm
      have hrest : ∃ x ∈ rest, ¬ x ∈ tbl := by
        obtain ⟨x, hx, hxm⟩ := h
        rcases List.mem_cons.1 hx with hc | hc
        · exact absurd hm (hc ▸ hxm)
        · exact ⟨x, hc, hxm⟩
      rw [resolveNames, hj, ih hrest]
    · rw [resolveNames, firstMatch_none_of_not_mem hm]

lemma resolveNames_ok_bounds {tbl : List String} {s : List String}
    {js : List Nat} (h : resolveNames tbl s = Except.ok js) :
    ∀ j ∈ js, 1 ≤ j ∧ j ≤ tbl.length := by
  induction s generalizing js with
  | nil =>
    obtain rfl : [] = js := by simpa [resolveNames] using h
    simp
  | cons nm rest ih =>
    rw [resolveNames] at h
    cases hfm : firstMatch tbl nm with
    | none => rw [hfm] at h; exact absurd h (by simp)
    | some j0 =>
      rw [hfm] at h
      cases hrec : resolveNames tbl rest with
      | error e => rw [hrec] at h; exact absurd h (by simp)
      | ok js' =>
        rw [hrec] at h
        obtain rfl : j0 :: js' = js := by simpa using h
        intro j hj
        rcases List.mem_cons.1 hj with rfl | hj'
        · obtain ⟨h1, h2, _, _⟩ := firstMatch_spec hfm
          exact ⟨h1, h2⟩
        · exact ih hrec j hj'

/-- C9: without a name table a `Names` specifier fails with
`NamesRequired`; with one, a request containing an unmatched name fails
with `NameNotFound`, and otherwise each requested name resolves, in
request order, to the first position of the table holding it. -/
theorem names_resolution (s : List String) (n : Nat) (tbl : List String)
    (opts : vec_as_location_options) :
    resolve (LocationSpecifier.Names s) n none opts
      = Except.error ResolveError.NamesRequired ∧
    ((∃ nm ∈ s, ¬ nm ∈ tbl) →
      resolve (LocationSpecifier.Names s) n (some tbl) opts
        = Except.error ResolveError.NameNotFound) ∧
    ((∀ nm ∈ s, nm ∈ tbl) →
      resolve (LocationSpecifier.Names s) n (some tbl) opts
        = Except.ok (s.map (fun nm => (firstMatch tbl nm).getD 0)) ∧
      ∀ (k : Nat) (nm : String) (j : Nat),
        s[k]? = some nm → firstMatch tbl nm = some j →
        (s.map (fun nm => (firstMatch tbl nm).getD 0))[k]? = some j ∧
          1 ≤ j ∧ tbl[j - 1]? = some nm ∧
          ∀ i, i < j - 1 → tbl[i]? ≠ some nm) := by
  refine ⟨rfl, ?_, ?_⟩
  · intro h
    simpa [resolve] using resolveNames_missing h
  · intro h
    refine ⟨by simpa [resolve] using resolveNames_map h, ?_⟩
    intro k nm j hk hj
    obtain ⟨h1, _, h3, h4⟩ := firstMatch_spec hj
    refine ⟨?_, h1, h3, h4⟩
    rw [List.getElem?_map, hk]
    simp [hj]

/-- Witness for C9 with the table `["a", "b", "a"]`: a missing table, an
unmatched name, and a successful request-order resolution in which the
duplicated name resolves to its first occurrence. -/
theorem names_resolution_witness :
    resolve (LocationSpecifier.Names ["b", "a"]) 3 none ⟨true⟩
      = Except.error ResolveError.NamesRequired ∧
    resolve (LocationSpecifier.Names ["c"]) 3 (some ["a", "b", "a"]) ⟨true⟩
      = Except.error ResolveError.NameNotFound ∧
    resolve (LocationSpecifier.Names ["b", "a"]) 3 (some ["a", "b", "a"]) ⟨true⟩
      = Except.ok (["b", "a"].map
          (fun nm => (firstMatch ["a", "b", "a"] nm).getD 0)) ∧
    (["b", "a"].map (fun nm => (firstMatch ["a", "b", "a"] nm).getD 0))[1]?
      = some 1 :=
  ⟨(names_resolution ["b", "a"] 3 ["a", "b", "a"] ⟨true⟩).1,
   (names_resolution ["c"] 3 ["a", "b", "a"] ⟨true⟩).2.1
      ⟨"c", by decide, by decide⟩,
   ((names_resolution ["b", "a"] 3 ["a", "b", "a"] ⟨true⟩).2.2 (by decide)).1,
   (((names_resolution ["b", "a"] 3 ["a", "b", "a"] ⟨true⟩).2.2 (by decide)).2
      1 "a" 1 rfl rfl).1⟩

lemma resolvePositions_ok_bounds {p : List Int} {n : Nat}
    {opts : vec_as_location_options} {r : List Nat}
    (h : resolvePositions p n opts = Except.ok r) :
    ∀ i ∈ r, 1 ≤ i ∧ i ≤ n := by
  unfold resolvePositions at h
  split at h
  · exact absurd h (by simp)
  · split at h
    · split at h
      · rename_i hall
        obtain rfl : (dropZeros p).map Int.toNat = r := by simpa using h
        intro i hi
        obtain ⟨v, hv, rfl⟩ := List.mem_map.1 hi
        have := List.all_eq_true.1 hall v hv
        simp at this
        omega
      · exact absurd h (by simp)
    · split at h
      · exact absurd h (by simp)
      · split at h
        · obtain rfl : ((List.range n).map (fun i => i + 1)).filter
              (fun i => decide (¬ i ∈ negMagnitudes p)) = r := by simpa using h
          intro i hi
          exact mem_one_based.1 (List.mem_of_mem_filter hi)
        · exact absurd h (by simp)

lemma resolveMask_ok_bounds {m : List Bool} {n : Nat} {r : List Nat}
    (h : resolveMask m n = Except.ok r) : ∀ i ∈ r, 1 ≤ i ∧ i ≤ n := by
  unfold resolveMask at h
  split at h
  · obtain rfl : (List.range n).filterMap
        (fun i => if m.getD i false then some (i + 1) else none) = r := by
      simpa using h
    intro i hi
    rw [filterMap_if_eq] at hi
    obtain ⟨j, hj, rfl⟩ := List.mem_map.1 hi
    have := List.mem_range.1 (List.mem_of_mem_filter hj)
    omega
  · split at h
    · split at h
      · obtain rfl : (List.range n).map (fun i => i + 1) = r := by simpa using h
        intro i hi
        exact mem_one_based.1 hi
      · obtain rfl : ([] : List Nat) = r := by simpa using h
        simp
    · exact absurd h (by simp)

/-- C4: with a name table of the vector's length, every successful
resolution yields only one-based indices inside `[1, n]`, and zero
entries of a `Positions` specifier are dropped before resolution, never
propagated. -/
theorem resolve_bounds (n : Nat) (names : Option (List String))
    (opts : vec_as_location_options)
    (htbl : ∀ tbl, names = some tbl → tbl.length = n) :
    (∀ (spec : LocationSpecifier) (r : List Nat),
      resolve spec n names opts = Except.ok r → ∀ i ∈ r, 1 ≤ i ∧ i ≤ n) ∧
    (∀ p : List Int,
      resolve (LocationSpecifier.Positions p) n names opts
        = resolve (LocationSpecifier.Positions (dropZeros p)) n names opts) := by
  constructor
  · intro spec r h
    cases spec with
    | Positions p => exact resolvePositions_ok_bounds h
    | Mask m => exact resolveMask_ok_bounds h
    | Names s =>
      cases names with
      | none => exact absurd h (by simp [resolve])
      | some tbl =>
        have hlen := htbl tbl rfl
        intro j hj
        have := resolveNames_ok_bounds (by simpa [resolve] using h) j hj
        omega
  · intro p
    simp only [resolve, resolvePositions, negMagnitudes, dropZeros_idem]

/-- Witness for C4: a bound instance from a successful resolution, and
zero-dropping at the specifier `[0, 2, 0]`. -/
theorem resolve_bounds_witness :
    (1 ≤ 3 ∧ 3 ≤ 5) ∧
    resolve (LocationSpecifier.Positions [0, 2, 0]) 5 none ⟨true⟩
      = resolve (LocationSpecifier.Positions (dropZeros [0, 2, 0])) 5 none ⟨true⟩ :=
  ⟨(resolve_bounds 5 none ⟨true⟩ (fun tbl h => nomatch h)).1
      (LocationSpecifier.Positions [1, 3, 5]) [1, 3, 5] rfl 3 (by decide),
   (resolve_bounds 5 none ⟨true⟩ (fun tbl h => nomatch h)).2 [0, 2, 0]⟩

end Vctrs
